import Mathlib

/-!
Verification development for the Stackdriver hook of `logrus` (src/stackdriver.go).

The file embeds `toSeverity`, `toClusterId`, `toComponentName`, `newHook`,
`stackDriverHook.Fire` and `testAndSetHook` together with the fragment of Go's
`regexp` package that the two patterns of the source exercise, and proves the
properties of the specification about them.
-/

namespace Logrus

/-! ## Ways in which a Go call can abort -/

/-- Abrupt terminations that the embedded code can end in. -/
inductive Abort where
  /-- The host library's `Panic(args...)`: logs the message, then panics with it. -/
  | panic (msg : String)
  /-- Go run-time error `index out of range [i] with length len`. -/
  | indexOutOfRange (i len : Nat)
  /-- The panic `regexp.MustCompile` raises on a pattern it cannot parse. -/
  | badPattern (pattern : String)
  /-- Go run-time error on a call through a nil pointer. -/
  | nilDereference
  deriving DecidableEq, Repr

deriving instance DecidableEq for Except

/-- Modelled from the spec: the host library's `Panic`, which is not part of
src/stackdriver.go; the spec says every bootstrap failure "aborts the process"
with the given message, so control never continues after the call. -/
def Panic {α : Type} (msg : String) : Except Abort α := .error (.panic msg)

/-- Go slice indexing `xs[i]`, which panics when `i` is out of range. -/
def index (xs : List String) (i : Nat) : Except Abort String :=
  match xs.get? i with
  | some x => .ok x
  | none => .error (.indexOutOfRange i xs.length)

/-! ## The fragment of Go's `regexp` used by the source

Go's `regexp` returns the match a backtracking search finds first
(leftmost-first), `+` is greedy, `.` matches every rune except the newline,
`^` matches at the beginning of the text only, and `FindStringSubmatch`
returns `nil` when there is no match and otherwise a slice holding the whole
match followed by one string per capture group. Texts are lists of runes and
offsets count runes; the captured texts are the same as with byte offsets. -/

/-- Single-rune matchers. -/
inductive Atom where
  | lit (c : Char)
  | anyNotNL
  deriving DecidableEq, Repr

/-- Does the atom accept the rune. -/
def Atom.test : Atom → Char → Bool
  | .lit c, x => x == c
  | .anyNotNL, x => x != '\n'

/-- Syntax trees of the fragment: `^`, one rune, greedy `+` on a rune matcher,
numbered capture groups and concatenation. -/
inductive Regex where
  | empty
  | beginText
  | one (a : Atom)
  | plus (a : Atom)
  | group (i : Nat) (r : Regex)
  | cat (r s : Regex)
  deriving DecidableEq, Repr

/-- A compiled expression: its syntax tree and the number of capture groups. -/
structure Regexp where
  prog : Regex
  numSubexp : Nat
  deriving DecidableEq, Repr

/-- Concatenation of a sequence of items given in reverse order. -/
def seqOf : List Regex → Regex
  | [] => .empty
  | r :: rs => rs.foldl (fun acc x => .cat x acc) r

/-- One open parenthesis level of the pattern reader: the number of the group
it belongs to (0 for the top level) and the items read so far, last first. -/
structure Frame where
  idx : Nat
  items : List Regex
  deriving Repr

/-- The pattern reader: `stack` is the list of open levels, innermost first,
`ngroups` the number of groups opened so far. -/
def parseAux : List Char → List Frame → Nat → Option Regexp
  | [], [top], ngroups => some ⟨seqOf top.items, ngroups⟩
  | [], _, _ => none
  | _ :: _, [], _ => none
  | c :: cs, f :: stack, ngroups =>
    if c = '^' then parseAux cs (⟨f.idx, .beginText :: f.items⟩ :: stack) ngroups
    else if c = '.' then parseAux cs (⟨f.idx, .one .anyNotNL :: f.items⟩ :: stack) ngroups
    else if c = '+' then
      match f.items with
      | .one a :: rest => parseAux cs (⟨f.idx, .plus a :: rest⟩ :: stack) ngroups
      | _ => none
    else if c = '(' then parseAux cs (⟨ngroups + 1, []⟩ :: f :: stack) (ngroups + 1)
    else if c = ')' then
      match stack with
      | parent :: stack' =>
        parseAux cs (⟨parent.idx, .group f.idx (seqOf f.items) :: parent.items⟩ :: stack') ngroups
      | [] => none
    else if c = '*' ∨ c = '?' ∨ c = '|' ∨ c = '[' ∨ c = ']' ∨ c = '\x7b' ∨ c = '\x7d'
        ∨ c = '$' ∨ c = '\\' then none
    else parseAux cs (⟨f.idx, .one (.lit c) :: f.items⟩ :: stack) ngroups

/-- Go's `regexp.MustCompile`, on the fragment: panics when the pattern does not parse. -/
def MustCompile (pattern : String) : Except Abort Regexp :=
  match parseAux pattern.toList [⟨0, []⟩] 0 with
  | some re => .ok re
  | none => .error (.badPattern pattern)

/-- Capture registers: for each group the start and end offsets, if it took part. -/
abbrev Caps := List (Option (Nat × Nat))

/-- Greedy `a+` at the text `s`: consume one rune, then prefer going round
again over leaving the loop with the continuation `k`. -/
def plusLoop (a : Atom) (k : List Char → Option Caps) : List Char → Option Caps
  | [] => none
  | c :: t =>
    if a.test c then
      match plusLoop a k t with
      | some r => some r
      | none => k t
    else none

/-- Backtracking matcher. `n` is the length of the whole text, `s` the text
that is left (so the current offset is `n - s.length`), `cs` the capture
registers, `k` what remains to be matched after this expression. -/
def run (n : Nat) : Regex → List Char → Caps → (List Char → Caps → Option Caps) → Option Caps
  | .empty, s, cs, k => k s cs
  | .beginText, s, cs, k => if s.length = n then k s cs else none
  | .one a, s, cs, k =>
    match s with
    | [] => none
    | c :: t => if a.test c then k t cs else none
  | .plus a, s, cs, k => plusLoop a (fun t => k t cs) s
  | .group i r, s, cs, k =>
    run n r s cs (fun t cs' => k t (cs'.set i (some (n - s.length, n - t.length))))
  | .cat r₁ r₂, s, cs, k => run n r₁ s cs (fun t cs' => run n r₂ t cs' k)

/-- One match attempt starting at the text `s`; register 0 receives the whole match. -/
def attempt (re : Regexp) (n : Nat) (s : List Char) : Option Caps :=
  run n re.prog s (List.replicate (re.numSubexp + 1) none)
    (fun t cs => some (cs.set 0 (some (n - s.length, n - t.length))))

/-- Leftmost search: try every start offset from left to right. -/
def searchFrom (re : Regexp) (n : Nat) : List Char → Option Caps
  | [] => attempt re n []
  | c :: t =>
    match attempt re n (c :: t) with
    | some cs => some cs
    | none => searchFrom re n t

/-- The text of a capture register; a group that took no part yields "". -/
def capText (s : List Char) : Option (Nat × Nat) → String
  | some (a, b) => String.mk ((s.drop a).take (b - a))
  | none => ""

/-- Go's `(*Regexp).FindStringSubmatch`: `nil` (the empty list) when nothing matches. -/
def Regexp.FindStringSubmatch (re : Regexp) (s : String) : List String :=
  match searchFrom re s.toList.length s.toList with
  | none => []
  | some cs => cs.map (capText s.toList)

/-! ## `toClusterId` and `toComponentName` (src/stackdriver.go, lines 44-60) -/

/-- Source: `toClusterId`. -/
def toClusterId (instanceName : String) : Except Abort String :=
  match MustCompile "^gke-(.+)-.+-pool-.+" with
  | .error e => .error e
  | .ok re =>
    let m := re.FindStringSubmatch instanceName
    if m.length = 1 ∨ m.length > 2 then
      Panic "Convert instance to cluster id failed"
    else index m 1

/-- Source: `toComponentName`. -/
def toComponentName (podName : String) : Except Abort String :=
  match MustCompile "^(.+)-.+-.+" with
  | .error e => .error e
  | .ok re =>
    let m := re.FindStringSubmatch podName
    if m.length = 1 ∨ m.length > 2 then
      Panic "Convert pod name to component name failed"
    else index m 1

/-! ## Severity mapping (src/stackdriver.go, lines 103-120) -/

/-- Modelled from the spec: the host library's `Level` type, declared outside
src/stackdriver.go; an unsigned integer, of which the "fixed ordered severity
set" names six values. -/
abbrev Level := Nat

/-- Modelled from the spec: the six host levels, in the order of the severity table. -/
def PanicLevel : Level := 0
/-- Modelled from the spec: second host level. -/
def FatalLevel : Level := 1
/-- Modelled from the spec: third host level. -/
def ErrorLevel : Level := 2
/-- Modelled from the spec: fourth host level. -/
def WarnLevel : Level := 3
/-- Modelled from the spec: fifth host level. -/
def InfoLevel : Level := 4
/-- Modelled from the spec: sixth host level. -/
def DebugLevel : Level := 5

/-- Modelled from the spec: the host library's `AllLevels`, "all levels, unconditionally". -/
def AllLevels : List Level :=
  [PanicLevel, FatalLevel, ErrorLevel, WarnLevel, InfoLevel, DebugLevel]

/-- The remote client's `logging.Severity` enumeration. -/
inductive Severity where
  | Default | Debug | Info | Notice | Warning | Error | Critical | Alert | Emergency
  deriving DecidableEq, Repr

/-- Source: `toSeverity`; the `switch` takes the first case that equals `level`. -/
def toSeverity (level : Level) : Severity :=
  if level = PanicLevel then .Critical
  else if level = FatalLevel then .Critical
  else if level = ErrorLevel then .Error
  else if level = WarnLevel then .Warning
  else if level = InfoLevel then .Info
  else if level = DebugLevel then .Debug
  else .Default

/-! ## The hook (src/stackdriver.go, lines 62-101) -/

/-- The resource descriptor `mrpb.MonitoredResource`. -/
structure MonitoredResource where
  type : String
  labels : List (String × String)
  deriving DecidableEq, Repr

/-- A `*logging.Client`, identified by the project it was created for. -/
structure Client where
  parent : String
  deriving DecidableEq, Repr

/-- A `*logging.Logger`: the client it came from, its log id and its common resource. -/
structure Logger where
  client : Client
  logID : String
  commonResource : MonitoredResource
  deriving DecidableEq, Repr

/-- The remote client's `logging.Entry`, with the two fields the source fills in. -/
structure LogEntry where
  Payload : String
  Severity : Severity
  deriving DecidableEq, Repr

/-- Modelled from the spec: the host library's `Entry`, "{level, message}". -/
structure Entry where
  Level : Level
  Message : String
  deriving DecidableEq, Repr

/-- Source: `stackDriverHook`; `logger` is a pointer and may be nil (`none`). -/
structure stackDriverHook where
  levels : List Level
  projectID : String
  cluster : String
  namespace_ : String
  component : String
  logger : Option Logger
  deriving DecidableEq, Repr

/-- Writers that can be installed as the host library's default output sink. -/
inductive Output where
  | stderr
  | discard
  deriving DecidableEq, Repr

/-- Requests to the platform metadata service. -/
inductive Lookup where
  | onGCE
  | projectID
  | instanceName
  deriving DecidableEq, Repr

/-- What the process can observe of its surroundings at start-up: the answers
of the metadata service, the environment variables and whether a logging
client can be created for a project. -/
structure Env where
  onGCE : Bool
  projectID : Except String String
  instanceName : Except String String
  getenv : String → String
  newClient : String → Except String Client

/-- The state the source acts on: the hooks registered with the host library,
its default output sink, the metadata requests made so far and the entries
handed to remote loggers so far. -/
structure World where
  hooks : List stackDriverHook
  out : Output
  lookups : List Lookup
  sent : List (Logger × LogEntry)
  deriving DecidableEq, Repr

/-- Modelled from the spec: the host library's `AddHook`, "hook registration". -/
def AddHook (sh : stackDriverHook) (w : World) : World :=
  { w with hooks := w.hooks ++ [sh] }

/-- Modelled from the spec: the host library's `SetOutput`, "output-sink replacement". -/
def SetOutput (o : Output) (w : World) : World :=
  { w with out := o }

/-- The remote client's `(*Logger).Log`: hands one entry to the logger. -/
def Logger.Log (l : Logger) (e : LogEntry) (w : World) : World :=
  { w with sent := w.sent ++ [(l, e)] }

/-- The remote client's `(*Client).Logger`. -/
def Client.Logger (c : Client) (logID : String) (res : MonitoredResource) : Logger :=
  ⟨c, logID, res⟩

/-- Source: `(*stackDriverHook).Levels`. -/
def stackDriverHook.Levels (sh : stackDriverHook) : List Level := sh.levels

/-- What a call of `Fire` leaves behind: the returned `error` (`none` is nil),
the receiver and the entry as they are after the call, and the world. -/
structure FireOutcome where
  err : Option String
  sh : stackDriverHook
  entry : Entry
  world : World
  deriving DecidableEq, Repr

/-- Source: `(*stackDriverHook).Fire`; calling `Log` through a nil `logger` is
a run-time abort. -/
def stackDriverHook.Fire (sh : stackDriverHook) (entry : Entry) (w : World) :
    Except Abort FireOutcome :=
  match sh.logger with
  | none => .error .nilDereference
  | some l =>
    .ok { err := none, sh := sh, entry := entry,
          world := l.Log ⟨entry.Message, toSeverity entry.Level⟩ w }

/-- Source: `newHook`. `Panic` joins its arguments as `fmt.Sprint` does. -/
def newHook (env : Env) (projectID cluster namespace_ component : String) :
    Except Abort stackDriverHook :=
  let sh : stackDriverHook :=
    { levels := AllLevels, projectID := projectID, cluster := cluster,
      namespace_ := namespace_, component := component, logger := none }
  match env.newClient projectID with
  | .error err => Panic ("new client create error: %v" ++ err)
  | .ok client =>
    let res : MonitoredResource :=
      { type := "container",
        labels := [("cluster_name", cluster), ("namespace_id", namespace_)] }
    .ok { sh with logger := some (client.Logger component res) }

/-! ## Bootstrap (src/stackdriver.go, lines 21-42) -/

/-- Source: `testAndSetHook`. Returns how the call ended and the world at that point. -/
def testAndSetHook (env : Env) (w : World) : Except Abort Unit × World :=
  let w₀ := { w with lookups := w.lookups ++ [.onGCE] }
  if env.onGCE then
    let w₁ := { w₀ with lookups := w₀.lookups ++ [.projectID] }
    match env.projectID with
    | .error err => (Panic err, w₁)
    | .ok projectID =>
      let w₂ := { w₁ with lookups := w₁.lookups ++ [.instanceName] }
      match env.instanceName with
      | .error err => (Panic err, w₂)
      | .ok inst =>
        let namespace_ := env.getenv "POD_NAMESPACE"
        if namespace_ = "" then
          (Panic "POD_NAMESPACE not set. Please define it in the yaml file using downward API", w₂)
        else
          let pod := env.getenv "POD_NAME"
          if pod = "" then
            (Panic "POD_NAME not set. Please define it in the yaml file using downward API", w₂)
          else
            match toClusterId inst with
            | .error e => (.error e, w₂)
            | .ok cluster =>
              match toComponentName pod with
              | .error e => (.error e, w₂)
              | .ok component =>
                match newHook env projectID cluster namespace_ component with
                | .error e => (.error e, w₂)
                | .ok sh => (.ok (), SetOutput .discard (AddHook sh w₂))
  else (.ok (), w₀)

/-! ## Example surroundings -/

/-- A world in which nothing has happened yet: no hook, output to stderr. -/
def freshWorld : World :=
  { hooks := [], out := .stderr, lookups := [], sent := [] }

/-- Environment variables of a pod "myservice-7d9f-abcde" in namespace "default". -/
def podEnv (v : String) : String :=
  if v = "POD_NAMESPACE" then "default"
  else if v = "POD_NAME" then "myservice-7d9f-abcde"
  else ""

/-- A platform on which everything resolves: project "my-project", instance
"gke-mycluster-abc-pool-xyz", and the logging client can be created. -/
def gkeEnv : Env :=
  { onGCE := true
    projectID := .ok "my-project"
    instanceName := .ok "gke-mycluster-abc-pool-xyz"
    getenv := podEnv
    newClient := fun p => .ok ⟨p⟩ }

/-- The same platform, whose metadata service answers the project-id lookup
with an empty string and no error. -/
def emptyProjectEnv : Env :=
  { gkeEnv with projectID := .ok "" }

/-- The same platform, with no environment variable set. -/
def noVarsEnv : Env :=
  { gkeEnv with getenv := fun _ => "" }

/-- The same surroundings, off the platform. -/
def offPlatformEnv : Env :=
  { gkeEnv with onGCE := false }

/-! ## What it means for a text to match, stated without the search -/

/-- The text `p` is matched by the expression, as a set of texts. -/
def Matches : Regex → List Char → Prop
  | .empty, p => p = []
  | .beginText, p => p = []
  | .one a, p => ∃ c, p = [c] ∧ a.test c = true
  | .plus a, p => p ≠ [] ∧ ∀ c ∈ p, a.test c = true
  | .group _ r, p => Matches r p
  | .cat r s, p => ∃ p₁ p₂, p = p₁ ++ p₂ ∧ Matches r p₁ ∧ Matches s p₂

/-- Expressions with neither `^` nor a capture group. -/
def Regex.plain : Regex → Bool
  | .empty => true
  | .beginText => false
  | .one _ => true
  | .plus _ => true
  | .group _ _ => false
  | .cat r s => r.plain && s.plain

/-- The expression that reads the runes of `l` one after the other, then `r`. -/
def lits (l : List Char) (r : Regex) : Regex :=
  l.foldr (fun c acc => .cat (.one (.lit c)) acc) r

/-- The text `t` starts with a match of the expression. -/
def StartsWith (r : Regex) (t : List Char) : Prop :=
  ∃ p t₂, t = p ++ t₂ ∧ Matches r p

/-- Expressions of the shape of the two patterns of the source: `^`, a literal
prefix `l`, one capture group `(a+)`, and a rest `tl` without groups. -/
def Shaped (re : Regexp) (l : List Char) (a : Atom) (tl : Regex) : Prop :=
  re.prog = .cat .beginText (lits l (.cat (.group 1 (.plus a)) tl)) ∧
    re.numSubexp = 1 ∧ tl.plain = true

/-- The compiled form of `^gke-(.+)-.+-pool-.+`, after the group: `-.+-pool-.+`. -/
def clusterTail : Regex :=
  lits ['-'] (.cat (.plus .anyNotNL) (lits ['-', 'p', 'o', 'o', 'l', '-'] (.plus .anyNotNL)))

/-- The compiled form of `^(.+)-.+-.+`, after the group: `-.+-.+`. -/
def podTail : Regex :=
  lits ['-'] (.cat (.plus .anyNotNL) (lits ['-'] (.plus .anyNotNL)))

/-- The compiled form of `^gke-(.+)-.+-pool-.+`. -/
def clusterRe : Regexp :=
  ⟨.cat .beginText (lits ['g', 'k', 'e', '-'] (.cat (.group 1 (.plus .anyNotNL)) clusterTail)), 1⟩

/-- The compiled form of `^(.+)-.+-.+`. -/
def podRe : Regexp :=
  ⟨.cat .beginText (lits [] (.cat (.group 1 (.plus .anyNotNL)) podTail)), 1⟩

/-! ## Facts about the matcher -/

/-- The greedy loop fails exactly when the continuation fails after every
non-empty run of accepted runes. -/
theorem plusLoop_eq_none (a : Atom) (k : List Char → Option Caps) (s : List Char) :
    plusLoop a k s = none ↔
      ∀ p t, s = p ++ t → p ≠ [] → (∀ c ∈ p, a.test c = true) → k t = none := by
  induction s with
  | nil =>
    constructor
    · intro _ p t h hp
      cases p with
      | nil => exact absurd rfl hp
      | cons c q => simp at h
    · intro _; rfl
  | cons c t ih =>
    constructor
    · intro h p t' hs hp hall
      cases p with
      | nil => exact absurd rfl hp
      | cons c' q =>
        simp only [List.cons_append, List.cons.injEq] at hs
        obtain ⟨rfl, rfl⟩ := hs
        have hc : a.test c = true := hall c (List.mem_cons_self _ _)
        simp only [plusLoop, hc, if_true] at h
        cases hl : plusLoop a k (q ++ t') with
        | some r => rw [hl] at h; cases h
        | none =>
          rw [hl] at h
          by_cases hq : q = []
          · subst hq; simpa using h
          · exact (ih.mp hl) q t' rfl hq (fun x hx => hall x (List.mem_cons_of_mem _ hx))
    · intro h
      by_cases hc : a.test c = true
      · have h1 : plusLoop a k t = none := by
          rw [ih]
          intro p t' hs hp hall
          refine h (c :: p) t' (by simp [hs]) (by simp) ?_
          intro x hx
          rcases List.mem_cons.mp hx with rfl | hx
          · exact hc
          · exact hall x hx
        have h2 : k t = none := h [c] t rfl (by simp) (by simpa using hc)
        simp [plusLoop, hc, h1, h2]
      · simp [plusLoop, hc]

/-- The greedy loop returns what the continuation returns after the longest
run of accepted runes after which the continuation succeeds. -/
theorem plusLoop_eq_some (a : Atom) (k : List Char → Option Caps) (s : List Char) (v : Caps) :
    plusLoop a k s = some v ↔
      ∃ p t, s = p ++ t ∧ p ≠ [] ∧ (∀ c ∈ p, a.test c = true) ∧ k t = some v ∧
        ∀ p' t', s = p' ++ t' → p.length < p'.length →
          (∀ c ∈ p', a.test c = true) → k t' = none := by
  induction s with
  | nil =>
    constructor
    · intro h; simp [plusLoop] at h
    · rintro ⟨p, t, hs, hp, -⟩
      cases p with
      | nil => exact absurd rfl hp
      | cons c q => simp at hs
  | cons c t ih =>
    constructor
    · intro h
      by_cases hc : a.test c = true
      · simp only [plusLoop, hc, if_true] at h
        cases hl : plusLoop a k t with
        | some r =>
          rw [hl] at h
          have hrv : r = v := by simpa using h
          subst hrv
          obtain ⟨p, t', hs, hp, hall, hk, hmax⟩ := ih.mp hl
          refine ⟨c :: p, t', by simp [hs], by simp, ?_, hk, ?_⟩
          · intro x hx
            rcases List.mem_cons.mp hx with rfl | hx
            · exact hc
            · exact hall x hx
          · intro p' t'' hs' hlen hall'
            cases p' with
            | nil => simp at hlen
            | cons c' q =>
              simp only [List.cons_append, List.cons.injEq] at hs'
              obtain ⟨rfl, hs'⟩ := hs'
              exact hmax q t'' hs' (by simpa using hlen)
                (fun x hx => hall' x (List.mem_cons_of_mem _ hx))
        | none =>
          rw [hl] at h
          refine ⟨[c], t, rfl, by simp, by simpa using hc, by simpa using h, ?_⟩
          intro p' t'' hs' hlen hall'
          cases p' with
          | nil => simp at hlen
          | cons c' q =>
            simp only [List.cons_append, List.cons.injEq] at hs'
            obtain ⟨rfl, hs'⟩ := hs'
            have hq : q ≠ [] := by
              intro hq; subst hq; simp at hlen
            exact (plusLoop_eq_none a k t).mp hl q t'' hs' hq
              (fun x hx => hall' x (List.mem_cons_of_mem _ hx))
      · simp [plusLoop, hc] at h
    · rintro ⟨p, t', hs, hp, hall, hk, hmax⟩
      cases p with
      | nil => exact absurd rfl hp
      | cons c' q =>
        simp only [List.cons_append, List.cons.injEq] at hs
        obtain ⟨rfl, rfl⟩ := hs
        have hc : a.test c = true := hall c (List.mem_cons_self _ _)
        simp only [plusLoop, hc, if_true]
        by_cases hq : q = []
        · subst hq
          have h1 : plusLoop a k ([] ++ t') = none := by
            rw [plusLoop_eq_none]
            intro p t'' hs hp hall'
            refine hmax (c :: p) t'' (by simp [hs]) ?_ ?_
            · cases p with
              | nil => exact absurd rfl hp
              | cons _ _ => simp
            · intro x hx
              rcases List.mem_cons.mp hx with rfl | hx
              · exact hc
              · exact hall' x hx
          rw [h1]; simpa using hk
        · have h1 : plusLoop a k (q ++ t') = some v := by
            rw [ih]
            refine ⟨q, t', rfl, hq, fun x hx => hall x (List.mem_cons_of_mem _ hx), hk, ?_⟩
            intro p' t'' hs' hlen hall'
            refine hmax (c :: p') t'' (by simp [hs']) (by simpa using hlen) ?_
            intro x hx
            rcases List.mem_cons.mp hx with rfl | hx
            · exact hc
            · exact hall' x hx
          rw [h1]

/-- Whatever the matcher returns comes from the continuation, called on what
is left after a text the expression matches; the registers keep their number,
and an expression without groups leaves them as they are. -/
theorem run_sound (n : Nat) (r : Regex) :
    ∀ (s : List Char) (cs : Caps) (k : List Char → Caps → Option Caps) (v : Caps),
      run n r s cs k = some v →
      ∃ p t cs', s = p ++ t ∧ Matches r p ∧ cs'.length = cs.length ∧
        (r.plain = true → cs' = cs) ∧ k t cs' = some v := by
  induction r with
  | empty =>
    intro s cs k v h
    exact ⟨[], s, cs, rfl, rfl, rfl, fun _ => rfl, h⟩
  | beginText =>
    intro s cs k v h
    simp only [run] at h
    split at h
    · exact ⟨[], s, cs, rfl, rfl, rfl, fun _ => rfl, h⟩
    · cases h
  | one a =>
    intro s cs k v h
    cases s with
    | nil => simp [run] at h
    | cons c t =>
      simp only [run] at h
      split at h
      · rename_i hc
        exact ⟨[c], t, cs, rfl, ⟨c, rfl, hc⟩, rfl, fun _ => rfl, h⟩
      · cases h
  | plus a =>
    intro s cs k v h
    simp only [run] at h
    obtain ⟨p, t, hs, hp, hall, hk, -⟩ := (plusLoop_eq_some a _ s v).mp h
    exact ⟨p, t, cs, hs, ⟨hp, hall⟩, rfl, fun _ => rfl, hk⟩
  | group i r ih =>
    intro s cs k v h
    simp only [run] at h
    obtain ⟨p, t, cs', hs, hm, hlen, -, hk⟩ := ih s cs _ v h
    exact ⟨p, t, _, hs, hm, by simp [hlen], fun hpl => by simp [Regex.plain] at hpl, hk⟩
  | cat r₁ r₂ ih₁ ih₂ =>
    intro s cs k v h
    simp only [run] at h
    obtain ⟨p₁, t₁, cs₁, hs₁, hm₁, hlen₁, hpl₁, hk₁⟩ := ih₁ s cs _ v h
    obtain ⟨p₂, t₂, cs₂, hs₂, hm₂, hlen₂, hpl₂, hk₂⟩ := ih₂ t₁ cs₁ k v hk₁
    refine ⟨p₁ ++ p₂, t₂, cs₂, by simp [hs₁, hs₂], ⟨p₁, p₂, rfl, hm₁, hm₂⟩,
      by rw [hlen₂, hlen₁], ?_, hk₂⟩
    intro hpl
    simp only [Regex.plain, Bool.and_eq_true] at hpl
    rw [hpl₂ hpl.2, hpl₁ hpl.1]

/-- An expression without `^` and groups succeeds on every text that starts
with a match after which the continuation succeeds. -/
theorem run_complete (n : Nat) (r : Regex) :
    ∀ (p t : List Char) (cs : Caps) (k : List Char → Caps → Option Caps),
      r.plain = true → Matches r p → (k t cs).isSome = true →
      (run n r (p ++ t) cs k).isSome = true := by
  induction r with
  | empty =>
    intro p t cs k _ hm hk
    simp only [Matches] at hm
    subst hm
    simpa [run] using hk
  | beginText => intro p t cs k hpl; simp [Regex.plain] at hpl
  | one a =>
    intro p t cs k _ hm hk
    obtain ⟨c, rfl, hc⟩ := hm
    simpa [run, hc] using hk
  | plus a =>
    intro p t cs k _ hm hk
    obtain ⟨hp, hall⟩ := hm
    simp only [run]
    cases hl : plusLoop a (fun t => k t cs) (p ++ t) with
    | some v => rfl
    | none =>
      have := (plusLoop_eq_none a _ _).mp hl p t rfl hp hall
      simp only at this
      rw [this] at hk
      cases hk
  | group i r _ => intro p t cs k hpl; simp [Regex.plain] at hpl
  | cat r₁ r₂ ih₁ ih₂ =>
    intro p t cs k hpl hm hk
    simp only [Regex.plain, Bool.and_eq_true] at hpl
    obtain ⟨p₁, p₂, rfl, hm₁, hm₂⟩ := hm
    simp only [run, List.append_assoc]
    exact ih₁ p₁ (p₂ ++ t) cs _ hpl.1 hm₁ (ih₂ p₂ t cs k hpl.2 hm₂ hk)

/-- A literal prefix is read off the text rune by rune. -/
theorem run_lits (n : Nat) (l : List Char) (r : Regex) :
    ∀ (s : List Char) (cs : Caps) (k : List Char → Caps → Option Caps) (v : Caps),
      run n (lits l r) s cs k = some v ↔ ∃ u, s = l ++ u ∧ run n r u cs k = some v := by
  induction l with
  | nil => intro s cs k v; simp [lits]
  | cons c l ih =>
    intro s cs k v
    have hl : lits (c :: l) r = .cat (.one (.lit c)) (lits l r) := rfl
    rw [hl]
    cases s with
    | nil => simp [run]
    | cons d t =>
      simp only [run, Atom.test, beq_iff_eq, List.cons_append, List.cons.injEq]
      by_cases hd : d = c
      · subst hd
        simp only [if_true, true_and]
        exact ih t cs k v
      · simp [hd]

/-- An expression anchored with `^` can only match at the start of the text. -/
theorem searchFrom_anchored (re : Regexp) (r : Regex) (h : re.prog = .cat .beginText r)
    (s : List Char) : searchFrom re s.length s = attempt re s.length s := by
  have hne : ∀ (n : Nat) (u : List Char), u.length ≠ n → attempt re n u = none := by
    intro n u hu
    simp [attempt, h, run, hu]
  have hlt : ∀ (n : Nat) (u : List Char), u.length < n → searchFrom re n u = none := by
    intro n u
    induction u with
    | nil => intro hu; simpa [searchFrom] using hne n [] (by simpa using hu.ne)
    | cons c t ih =>
      intro hu
      have h1 := hne n (c :: t) hu.ne
      have h2 := ih (by simp at hu; omega)
      simp [searchFrom, h1, h2]
  cases s with
  | nil => rfl
  | cons c t =>
    cases ha : attempt re (c :: t).length (c :: t) with
    | some v => rw [searchFrom, ha]
    | none =>
      have := hlt (c :: t).length t (by simp)
      rw [searchFrom, ha, this]

/-- A successful search of such an expression: the text is the prefix, then
the longest run `c` of accepted runes that the rest can follow, and register
1 holds the offsets of `c`. -/
theorem search_sound {re : Regexp} {l : List Char} {a : Atom} {tl : Regex}
    (hre : Shaped re l a tl) (s : List Char) (v : Caps)
    (h : searchFrom re s.length s = some v) :
    ∃ c t w, s = l ++ (c ++ t) ∧ c ≠ [] ∧ (∀ x ∈ c, a.test x = true) ∧ StartsWith tl t ∧
      (∀ c' t', c ++ t = c' ++ t' → c.length < c'.length →
        (∀ x ∈ c', a.test x = true) → ¬ StartsWith tl t') ∧
      v = [some w, some (l.length, l.length + c.length)] := by
  obtain ⟨hprog, hnum, hpl⟩ := hre
  rw [searchFrom_anchored re _ hprog] at h
  simp only [attempt, hprog, hnum, run, if_true] at h
  rw [run_lits] at h
  obtain ⟨u, hs, h⟩ := h
  simp only [run] at h
  obtain ⟨c, t, hu, hc, hall, hk, hmax⟩ := (plusLoop_eq_some a _ u v).mp h
  obtain ⟨p, t₂, cs', ht, hm, -, hcs, hv⟩ := run_sound _ tl _ _ _ _ hk
  refine ⟨c, t, (s.length - s.length, s.length - t₂.length), by rw [hs, hu], hc, hall,
    ⟨p, t₂, ht, hm⟩, ?_, ?_⟩
  · intro c' t' hsplit hlen hall' ⟨p', t₂', ht', hm'⟩
    have hnone := hmax c' t' (by rw [hu, hsplit]) hlen hall'
    have hsome := run_complete s.length tl p' t₂'
      ([none, none].set 1 (some (s.length - u.length, s.length - t'.length)))
      (fun t cs => some (cs.set 0 (some (s.length - s.length, s.length - t.length))))
      hpl hm' rfl
    rw [← ht'] at hsome
    simp only [List.replicate] at hnone
    rw [hnone] at hsome
    cases hsome
  · rw [hcs hpl] at hv
    simp only [Option.some.injEq] at hv
    rw [← hv]
    have h1 : s.length - u.length = l.length := by simp [hs]
    have h2 : s.length - t.length = l.length + c.length := by
      simp [hs, hu]; omega
    simp [List.replicate, h1, h2]

/-- The search of such an expression succeeds on every text made of the
prefix, a non-empty run of accepted runes and something the rest can follow. -/
theorem search_complete {re : Regexp} {l : List Char} {a : Atom} {tl : Regex}
    (hre : Shaped re l a tl) (c t : List Char) (hc : c ≠ [])
    (hall : ∀ x ∈ c, a.test x = true) (ht : StartsWith tl t) :
    ∃ v, searchFrom re (l ++ (c ++ t)).length (l ++ (c ++ t)) = some v := by
  obtain ⟨hprog, hnum, hpl⟩ := hre
  obtain ⟨p, t₂, ht, hm⟩ := ht
  rw [searchFrom_anchored re _ hprog]
  cases hv : attempt re (l ++ (c ++ t)).length (l ++ (c ++ t)) with
  | some v => exact ⟨v, rfl⟩
  | none =>
    exfalso
    simp only [attempt, hprog, hnum, run, if_true] at hv
    have hstep : ∀ v, ¬ (∃ u, l ++ (c ++ t) = l ++ u ∧
        run (l ++ (c ++ t)).length (.cat (.group 1 (.plus a)) tl) u
          (List.replicate (1 + 1) none)
          (fun t' cs => some (cs.set 0 (some ((l ++ (c ++ t)).length - (l ++ (c ++ t)).length,
            (l ++ (c ++ t)).length - t'.length)))) = some v) := by
      intro v hex
      rw [← run_lits] at hex
      rw [hv] at hex
      cases hex
    cases hr : run (l ++ (c ++ t)).length (.cat (.group 1 (.plus a)) tl) (c ++ t)
          (List.replicate (1 + 1) none)
          (fun t' cs => some (cs.set 0 (some ((l ++ (c ++ t)).length - (l ++ (c ++ t)).length,
            (l ++ (c ++ t)).length - t'.length)))) with
    | some v => exact hstep v ⟨c ++ t, rfl, hr⟩
    | none =>
      simp only [run] at hr
      have hnone := (plusLoop_eq_none a _ _).mp hr c t rfl hc hall
      have hsome := run_complete (l ++ (c ++ t)).length tl p t₂
        ((List.replicate (1 + 1) none).set 1
          (some ((l ++ (c ++ t)).length - (c ++ t).length, (l ++ (c ++ t)).length - t.length)))
        (fun t' cs => some (cs.set 0 (some ((l ++ (c ++ t)).length - (l ++ (c ++ t)).length,
            (l ++ (c ++ t)).length - t'.length))))
        hpl hm rfl
      rw [← ht] at hsome
      simp only at hnone
      rw [hnone] at hsome
      cases hsome

/-- The pattern of `toClusterId` compiles to `clusterRe`. -/
theorem compile_cluster : MustCompile "^gke-(.+)-.+-pool-.+" = .ok clusterRe := by
  decide

/-- The pattern of `toComponentName` compiles to `podRe`. -/
theorem compile_pod : MustCompile "^(.+)-.+-.+" = .ok podRe := by
  decide

/-- The instance-name pattern has the shape the search lemmas are about. -/
theorem shaped_cluster : Shaped clusterRe ['g', 'k', 'e', '-'] .anyNotNL clusterTail :=
  ⟨rfl, rfl, rfl⟩

/-- The pod-name pattern has the shape the search lemmas are about. -/
theorem shaped_pod : Shaped podRe [] .anyNotNL podTail :=
  ⟨rfl, rfl, rfl⟩

/-- A text matches a literal prefix followed by `r` when it is the prefix
followed by a match of `r`. -/
theorem matches_lits (l : List Char) (r : Regex) :
    ∀ p, Matches (lits l r) p ↔ ∃ q, p = l ++ q ∧ Matches r q := by
  induction l with
  | nil => intro p; simp [lits]
  | cons c l ih =>
    intro p
    have hl : lits (c :: l) r = .cat (.one (.lit c)) (lits l r) := rfl
    rw [hl]
    simp only [Matches, Atom.test, beq_iff_eq]
    constructor
    · rintro ⟨p₁, p₂, rfl, ⟨d, rfl, rfl⟩, hm⟩
      obtain ⟨q, rfl, hq⟩ := (ih p₂).mp hm
      exact ⟨q, rfl, hq⟩
    · rintro ⟨q, rfl, hq⟩
      exact ⟨[c], l ++ q, rfl, ⟨c, rfl, rfl⟩, (ih _).mpr ⟨q, rfl, hq⟩⟩

/-- A concatenation matches the texts that split into a match of each part. -/
theorem matches_cat (r s : Regex) (p : List Char) :
    Matches (.cat r s) p ↔ ∃ p₁ p₂, p = p₁ ++ p₂ ∧ Matches r p₁ ∧ Matches s p₂ :=
  Iff.rfl

/-- The loop `.+` matches the non-empty newline-free texts. -/
theorem matches_plus_any (p : List Char) :
    Matches (.plus .anyNotNL) p ↔ p ≠ [] ∧ ∀ c ∈ p, c ≠ '\n' := by
  show (p ≠ [] ∧ ∀ c ∈ p, Atom.test .anyNotNL c = true) ↔ _
  simp [Atom.test]

/-- Texts that start with a match of `-.+-pool-.+`. -/
theorem startsWith_clusterTail (t : List Char) :
    StartsWith clusterTail t ↔
      ∃ x y t₂, t = '-' :: (x ++ ('-' :: 'p' :: 'o' :: 'o' :: 'l' :: '-' :: (y ++ t₂))) ∧
        x ≠ [] ∧ (∀ c ∈ x, c ≠ '\n') ∧ y ≠ [] ∧ (∀ c ∈ y, c ≠ '\n') := by
  unfold StartsWith clusterTail
  simp only [matches_lits, matches_cat, matches_plus_any]
  constructor
  · rintro ⟨p, t₂, rfl, q, rfl, p₁, p₂, rfl, ⟨hx, hxn⟩, y, rfl, hy, hyn⟩
    exact ⟨p₁, y, t₂, by simp, hx, hxn, hy, hyn⟩
  · rintro ⟨x, y, t₂, rfl, hx, hxn, hy, hyn⟩
    exact ⟨_, t₂, by simp, _, rfl, x, _, rfl, ⟨hx, hxn⟩, y, rfl, hy, hyn⟩

/-- Texts that start with a match of `-.+-.+`. -/
theorem startsWith_podTail (t : List Char) :
    StartsWith podTail t ↔
      ∃ x y t₂, t = '-' :: (x ++ ('-' :: (y ++ t₂))) ∧
        x ≠ [] ∧ (∀ c ∈ x, c ≠ '\n') ∧ y ≠ [] ∧ (∀ c ∈ y, c ≠ '\n') := by
  unfold StartsWith podTail
  simp only [matches_lits, matches_cat, matches_plus_any]
  constructor
  · rintro ⟨p, t₂, rfl, q, rfl, p₁, p₂, rfl, ⟨hx, hxn⟩, y, rfl, hy, hyn⟩
    exact ⟨p₁, y, t₂, by simp, hx, hxn, hy, hyn⟩
  · rintro ⟨x, y, t₂, rfl, hx, hxn, hy, hyn⟩
    exact ⟨_, t₂, by simp, _, rfl, x, _, rfl, ⟨hx, hxn⟩, y, rfl, hy, hyn⟩

/-- A text that starts with a match of `-.+-pool-.+` holds three hyphens or more. -/
theorem count_clusterTail (t : List Char) (h : StartsWith clusterTail t) :
    3 ≤ t.count '-' := by
  obtain ⟨x, y, t₂, rfl, -⟩ := (startsWith_clusterTail t).mp h
  simp [List.count_cons, List.count_append]
  omega

/-- A text that starts with a match of `-.+-.+` holds two hyphens or more. -/
theorem count_podTail (t : List Char) (h : StartsWith podTail t) :
    2 ≤ t.count '-' := by
  obtain ⟨x, y, t₂, rfl, -⟩ := (startsWith_podTail t).mp h
  simp [List.count_cons, List.count_append]
  omega

/-- On a text that can be split into prefix, accepted run `c` and a rest that
the tail can follow, the search succeeds and captures the longest such run. -/
theorem greedy_longest {re : Regexp} {l : List Char} {a : Atom} {tl : Regex}
    (hre : Shaped re l a tl) (c t : List Char) (hc : c ≠ [])
    (hall : ∀ x ∈ c, a.test x = true) (ht : StartsWith tl t) :
    ∃ c' t' w, c ++ t = c' ++ t' ∧ c.length ≤ c'.length ∧ c' ≠ [] ∧
      (∀ x ∈ c', a.test x = true) ∧ StartsWith tl t' ∧
      searchFrom re (l ++ (c ++ t)).length (l ++ (c ++ t)) =
        some [some w, some (l.length, l.length + c'.length)] := by
  obtain ⟨v, hv⟩ := search_complete hre c t hc hall ht
  obtain ⟨c', t', w, hs, hc', hall', ht', hmax, rfl⟩ := search_sound hre _ v hv
  have hs' : c ++ t = c' ++ t' := List.append_cancel_left hs
  refine ⟨c', t', w, hs', ?_, hc', hall', ht', hv⟩
  by_contra hlt
  exact hmax c t hs'.symm (by omega) hall ht

/-- When moreover the rest `t` has, after its first rune, fewer hyphens than
any text the tail can follow, the captured run is `c` itself. -/
theorem greedy_unique {re : Regexp} {l : List Char} {a : Atom} {tl : Regex}
    (hre : Shaped re l a tl) (m : Nat) (hcount : ∀ t, StartsWith tl t → m ≤ t.count '-')
    (c : List Char) (d : Char) (u : List Char) (hc : c ≠ [])
    (hall : ∀ x ∈ c, a.test x = true) (ht : StartsWith tl (d :: u))
    (hu : u.count '-' < m) :
    ∃ w, searchFrom re (l ++ (c ++ d :: u)).length (l ++ (c ++ d :: u)) =
      some [some w, some (l.length, l.length + c.length)] := by
  obtain ⟨c', t', w, hs, hlen, -, -, ht', hv⟩ := greedy_longest hre c (d :: u) hc hall ht
  have hcc : c' = c := by
    rcases List.append_eq_append_iff.mp hs with ⟨e, hc', he⟩ | ⟨e, hce, -⟩
    · cases e with
      | nil => simpa using hc'
      | cons d' e' =>
        exfalso
        simp only [List.cons_append, List.cons.injEq] at he
        have h1 := hcount t' ht'
        have h2 : t'.count '-' ≤ u.count '-' := by
          rw [he.2, List.count_append]
          omega
        omega
    · have : e = [] := by
        have := congrArg List.length hce
        simp only [List.length_append] at this
        exact List.length_eq_zero.mp (by omega)
      subst this
      simpa using hce.symm
  rw [hcc] at hv
  exact ⟨w, hv⟩

/-- `FindStringSubmatch` in terms of the search. -/
theorem find_of_search (re : Regexp) (s : String) (v : Caps)
    (h : searchFrom re s.toList.length s.toList = some v) :
    re.FindStringSubmatch s = v.map (capText s.toList) := by
  unfold Regexp.FindStringSubmatch
  rw [h]

/-- No match: `FindStringSubmatch` returns nil. -/
theorem find_of_search_none (re : Regexp) (s : String)
    (h : searchFrom re s.toList.length s.toList = none) :
    re.FindStringSubmatch s = [] := by
  unfold Regexp.FindStringSubmatch
  rw [h]

/-- A successful search makes `toClusterId` return the text of register 1. -/
theorem toClusterId_of_search (name : String) (l c t : List Char) (w : Nat × Nat)
    (hname : name.toList = l ++ (c ++ t))
    (h : searchFrom clusterRe name.toList.length name.toList =
      some [some w, some (l.length, l.length + c.length)]) :
    toClusterId name = .ok (String.mk c) := by
  have hfind := find_of_search clusterRe name _ h
  have htext : List.take c.length (List.drop l.length name.data) = c := by
    have hdata : name.data = l ++ (c ++ t) := hname
    rw [hdata, List.drop_left, List.take_left]
  simp [toClusterId, compile_cluster, hfind, index, capText, htext]

/-- A successful search makes `toComponentName` return the text of register 1. -/
theorem toComponentName_of_search (name : String) (l c t : List Char) (w : Nat × Nat)
    (hname : name.toList = l ++ (c ++ t))
    (h : searchFrom podRe name.toList.length name.toList =
      some [some w, some (l.length, l.length + c.length)]) :
    toComponentName name = .ok (String.mk c) := by
  have hfind := find_of_search podRe name _ h
  have htext : List.take c.length (List.drop l.length name.data) = c := by
    have hdata : name.data = l ++ (c ++ t) := hname
    rw [hdata, List.drop_left, List.take_left]
  simp [toComponentName, compile_pod, hfind, index, capText, htext]

/-- A non-empty string has a non-empty list of runes. -/
theorem toList_ne_nil (a : String) (h : a ≠ "") : a.toList ≠ [] := by
  intro h'
  apply h
  cases a
  simp_all

/-- A list free of hyphens counts none. -/
theorem count_hyphen_zero (l : List Char) (h : '-' ∉ l) : l.count '-' = 0 :=
  List.count_eq_zero.mpr h

/-- Every rune of a newline-free list is accepted by `.`. -/
theorem test_any_of_not_mem (l : List Char) (h : '\n' ∉ l) :
    ∀ d ∈ l, Atom.test .anyNotNL d = true := by
  intro d hd
  simp only [Atom.test, bne_iff_ne]
  rintro rfl
  exact h hd

/-! ## The claims about `toClusterId` and `toComponentName` -/

/-- C2: for every non-empty newline-free `c` (hyphens and "-pool-" allowed in
it) and all non-empty `x`, `y` without hyphen and newline, `toClusterId`
returns exactly `c` on "gke-" ++ c ++ "-" ++ x ++ "-pool-" ++ y, without aborting. -/
theorem toClusterId_capture (c x y : String)
    (hc : c ≠ "") (hcn : '\n' ∉ c.toList)
    (hx : x ≠ "") (hxh : '-' ∉ x.toList) (hxn : '\n' ∉ x.toList)
    (hy : y ≠ "") (hyh : '-' ∉ y.toList) (hyn : '\n' ∉ y.toList) :
    toClusterId ("gke-" ++ c ++ "-" ++ x ++ "-pool-" ++ y) = .ok c := by
  have hname : ("gke-" ++ c ++ "-" ++ x ++ "-pool-" ++ y).toList =
      ['g', 'k', 'e', '-'] ++ (c.toList ++
        '-' :: (x.toList ++ ('-' :: 'p' :: 'o' :: 'o' :: 'l' :: '-' :: (y.toList ++ [])))) := by
    simp [String.toList]
  have hstart : StartsWith clusterTail
      ('-' :: (x.toList ++ ('-' :: 'p' :: 'o' :: 'o' :: 'l' :: '-' :: (y.toList ++ [])))) :=
    (startsWith_clusterTail _).mpr ⟨x.toList, y.toList, [], rfl, toList_ne_nil x hx,
      fun d hd hdn => hxn (hdn ▸ hd), toList_ne_nil y hy, fun d hd hdn => hyn (hdn ▸ hd)⟩
  have hcount : (x.toList ++ ('-' :: 'p' :: 'o' :: 'o' :: 'l' :: '-' :: (y.toList ++ []))).count '-'
      < 3 := by
    have h1 : x.data.count '-' = 0 := count_hyphen_zero _ hxh
    have h2 : y.data.count '-' = 0 := count_hyphen_zero _ hyh
    simp [List.count_append, List.count_cons, h1, h2]
  obtain ⟨w, hw⟩ := greedy_unique shaped_cluster 3 count_clusterTail c.toList '-' _
    (toList_ne_nil c hc) (test_any_of_not_mem _ hcn)
    hstart hcount
  rw [← hname] at hw
  have := toClusterId_of_search _ _ _ _ w hname hw
  simpa using this

/-- C2 at the name of the specification: "gke-mycluster-abc-pool-xyz" gives "mycluster". -/
theorem toClusterId_capture_witness :
    toClusterId "gke-mycluster-abc-pool-xyz" = .ok "mycluster" :=
  toClusterId_capture "mycluster" "abc" "xyz" (by decide) (by decide) (by decide) (by decide)
    (by decide) (by decide) (by decide) (by decide)

/-- C3: for every non-empty newline-free `c` (hyphens allowed in it) and all
non-empty `a`, `b` without hyphen and newline, `toComponentName` returns
exactly `c` on c ++ "-" ++ a ++ "-" ++ b: it strips the last two segments. -/
theorem toComponentName_capture (c a b : String)
    (hc : c ≠ "") (hcn : '\n' ∉ c.toList)
    (ha : a ≠ "") (hah : '-' ∉ a.toList) (han : '\n' ∉ a.toList)
    (hb : b ≠ "") (hbh : '-' ∉ b.toList) (hbn : '\n' ∉ b.toList) :
    toComponentName (c ++ "-" ++ a ++ "-" ++ b) = .ok c := by
  have hname : (c ++ "-" ++ a ++ "-" ++ b).toList =
      [] ++ (c.toList ++ '-' :: (a.toList ++ ('-' :: (b.toList ++ [])))) := by
    simp [String.toList]
  have hstart : StartsWith podTail ('-' :: (a.toList ++ ('-' :: (b.toList ++ [])))) :=
    (startsWith_podTail _).mpr ⟨a.toList, b.toList, [], rfl, toList_ne_nil a ha,
      fun d hd hdn => han (hdn ▸ hd), toList_ne_nil b hb, fun d hd hdn => hbn (hdn ▸ hd)⟩
  have hcount : (a.toList ++ ('-' :: (b.toList ++ []))).count '-' < 2 := by
    have h1 : a.data.count '-' = 0 := count_hyphen_zero _ hah
    have h2 : b.data.count '-' = 0 := count_hyphen_zero _ hbh
    simp [List.count_append, List.count_cons, h1, h2]
  obtain ⟨w, hw⟩ := greedy_unique shaped_pod 2 count_podTail c.toList '-' _
    (toList_ne_nil c hc) (test_any_of_not_mem _ hcn)
    hstart hcount
  rw [← hname] at hw
  have := toComponentName_of_search _ _ _ _ w hname hw
  simpa using this

/-- C3 at the name of the specification: "myservice-7d9f-abcde" gives "myservice". -/
theorem toComponentName_capture_witness :
    toComponentName "myservice-7d9f-abcde" = .ok "myservice" :=
  toComponentName_capture "myservice" "7d9f" "abcde" (by decide) (by decide) (by decide)
    (by decide) (by decide) (by decide) (by decide) (by decide)

/-- The instance-name search either fails or fills exactly two registers, the
second with a non-empty run of the name right after "gke-". -/
theorem cluster_search_cases (name : String) :
    searchFrom clusterRe name.toList.length name.toList = none ∨
      ∃ c t w, name.toList = ['g', 'k', 'e', '-'] ++ (c ++ t) ∧ c ≠ [] ∧
        StartsWith clusterTail t ∧
        searchFrom clusterRe name.toList.length name.toList =
          some [some w, some (4, 4 + c.length)] := by
  cases h : searchFrom clusterRe name.toList.length name.toList with
  | none => exact Or.inl rfl
  | some v =>
    obtain ⟨c, t, w, hs, hc, -, ht, -, rfl⟩ := search_sound shaped_cluster _ v h
    exact Or.inr ⟨c, t, w, hs, hc, ht, rfl⟩

/-- The pod-name search either fails or fills exactly two registers, the
second with a non-empty run at the start of the name. -/
theorem pod_search_cases (name : String) :
    searchFrom podRe name.toList.length name.toList = none ∨
      ∃ c t w, name.toList = [] ++ (c ++ t) ∧ c ≠ [] ∧
        StartsWith podTail t ∧
        searchFrom podRe name.toList.length name.toList =
          some [some w, some (0, 0 + c.length)] := by
  cases h : searchFrom podRe name.toList.length name.toList with
  | none => exact Or.inl rfl
  | some v =>
    obtain ⟨c, t, w, hs, hc, -, ht, -, rfl⟩ := search_sound shaped_pod _ v h
    exact Or.inr ⟨c, t, w, hs, hc, ht, rfl⟩

/-- Without a match `toClusterId` indexes the empty result. -/
theorem toClusterId_of_search_none (name : String)
    (h : searchFrom clusterRe name.toList.length name.toList = none) :
    toClusterId name = .error (.indexOutOfRange 1 0) := by
  simp [toClusterId, compile_cluster, find_of_search_none _ _ h, index]

/-- Without a match `toComponentName` indexes the empty result. -/
theorem toComponentName_of_search_none (name : String)
    (h : searchFrom podRe name.toList.length name.toList = none) :
    toComponentName name = .error (.indexOutOfRange 1 0) := by
  simp [toComponentName, compile_pod, find_of_search_none _ _ h, index]

/-- A cluster id that `toClusterId` returns is never empty. -/
theorem toClusterId_ok_ne_empty (name cluster : String) (h : toClusterId name = .ok cluster) :
    cluster ≠ "" := by
  rcases cluster_search_cases name with hn | ⟨c, t, w, hs, hc, -, hv⟩
  · rw [toClusterId_of_search_none name hn] at h
    cases h
  · rw [toClusterId_of_search name _ c t w hs hv] at h
    injection h with h
    subst h
    intro hmk
    exact hc (congrArg String.data hmk)

/-- A component name that `toComponentName` returns is never empty. -/
theorem toComponentName_ok_ne_empty (name comp : String)
    (h : toComponentName name = .ok comp) : comp ≠ "" := by
  rcases pod_search_cases name with hn | ⟨c, t, w, hs, hc, -, hv⟩
  · rw [toComponentName_of_search_none name hn] at h
    cases h
  · rw [toComponentName_of_search name _ c t w hs hv] at h
    injection h with h
    subst h
    intro hmk
    exact hc (congrArg String.data hmk)

/-- C4, as the code has it: "gke-my-cluster-default-pool-abc" can be read with
cluster "my" and with cluster "my-cluster", and `toClusterId` does not abort
on it but returns "my-cluster". -/
theorem toClusterId_ambiguous_returns :
    "gke-my-cluster-default-pool-abc" = "gke-" ++ "my" ++ "-" ++ "cluster-default" ++ "-pool-" ++ "abc" ∧
    "gke-my-cluster-default-pool-abc" = "gke-" ++ "my-cluster" ++ "-" ++ "default" ++ "-pool-" ++ "abc" ∧
    toClusterId "gke-my-cluster-default-pool-abc" = .ok "my-cluster" := by
  decide

/-- C4 amended: on a newline-free name that can be written as
"gke-" ++ c ++ "-" ++ x ++ "-pool-" ++ y with non-empty parts, in one way or
in several, `toClusterId` does not abort: it returns a cluster `c'` of such a
reading of the name, and no reading has a longer cluster. -/
theorem toClusterId_longest (c x y : String) (hc : c ≠ "") (hx : x ≠ "") (hy : y ≠ "")
    (hn : '\n' ∉ ("gke-" ++ c ++ "-" ++ x ++ "-pool-" ++ y).toList) :
    ∃ c' x' y', c' ≠ "" ∧ x' ≠ "" ∧ y' ≠ "" ∧
      "gke-" ++ c ++ "-" ++ x ++ "-pool-" ++ y = "gke-" ++ c' ++ "-" ++ x' ++ "-pool-" ++ y' ∧
      c.length ≤ c'.length ∧
      toClusterId ("gke-" ++ c ++ "-" ++ x ++ "-pool-" ++ y) = .ok c' := by
  have hname : ("gke-" ++ c ++ "-" ++ x ++ "-pool-" ++ y).toList =
      ['g', 'k', 'e', '-'] ++ (c.toList ++
        '-' :: (x.toList ++ ('-' :: 'p' :: 'o' :: 'o' :: 'l' :: '-' :: (y.toList ++ [])))) := by
    simp [String.toList]
  rw [hname] at hn
  simp only [List.mem_append, List.mem_cons, not_or] at hn
  have hcn : '\n' ∉ c.toList := hn.2.1
  have hxn : '\n' ∉ x.toList := hn.2.2.2.1
  have hyn : '\n' ∉ y.toList := hn.2.2.2.2.2.2.2.2.2.2.1
  have hstart : StartsWith clusterTail
      ('-' :: (x.toList ++ ('-' :: 'p' :: 'o' :: 'o' :: 'l' :: '-' :: (y.toList ++ [])))) :=
    (startsWith_clusterTail _).mpr ⟨x.toList, y.toList, [], rfl, toList_ne_nil x hx,
      fun d hd hdn => hxn (hdn ▸ hd), toList_ne_nil y hy, fun d hd hdn => hyn (hdn ▸ hd)⟩
  obtain ⟨c', t', w, hs, hlen, hc', -, ht', hv⟩ := greedy_longest shaped_cluster c.toList _
    (toList_ne_nil c hc) (test_any_of_not_mem _ hcn) hstart
  obtain ⟨x', y', t₂, rfl, hx', -, hy', -⟩ := (startsWith_clusterTail t').mp ht'
  have hname' : ("gke-" ++ c ++ "-" ++ x ++ "-pool-" ++ y).toList =
      ['g', 'k', 'e', '-'] ++ (c' ++
        '-' :: (x' ++ ('-' :: 'p' :: 'o' :: 'o' :: 'l' :: '-' :: (y' ++ t₂)))) := by
    rw [hname, hs]
  rw [← hname] at hv
  refine ⟨String.mk c', String.mk x', String.mk (y' ++ t₂), ?_, ?_, ?_, ?_, ?_,
    toClusterId_of_search _ _ _ _ w hname' hv⟩
  · intro h; exact hc' (congrArg String.data h)
  · intro h; exact hx' (congrArg String.data h)
  · intro h
    have := congrArg String.data h
    simp at this
    exact hy' this.1
  · apply String.ext
    have : ("gke-" ++ c ++ "-" ++ x ++ "-pool-" ++ y).data = _ := hname'
    rw [this]
    simp
  · exact hlen

/-- C4 amended, at a name with two readings. -/
theorem toClusterId_longest_witness :
    ∃ c' x' y', c' ≠ "" ∧ x' ≠ "" ∧ y' ≠ "" ∧
      "gke-" ++ "my" ++ "-" ++ "cluster-default" ++ "-pool-" ++ "abc" =
        "gke-" ++ c' ++ "-" ++ x' ++ "-pool-" ++ y' ∧
      "my".length ≤ c'.length ∧
      toClusterId ("gke-" ++ "my" ++ "-" ++ "cluster-default" ++ "-pool-" ++ "abc") = .ok c' :=
  toClusterId_longest "my" "cluster-default" "abc" (by decide) (by decide) (by decide) (by decide)

/-- C5: a pod name with no matching segments, that is, one that cannot be
written as c ++ "-" ++ a ++ "-" ++ b with non-empty parts, in particular one
with fewer than two hyphens (the empty name included), makes
`toComponentName` abort: no component name is returned. -/
theorem toComponentName_aborts (podName : String)
    (h : podName.toList.count '-' < 2 ∨
      ¬ ∃ c a b : String, c ≠ "" ∧ a ≠ "" ∧ b ≠ "" ∧ podName = c ++ "-" ++ a ++ "-" ++ b) :
    toComponentName podName = .error (.indexOutOfRange 1 0) := by
  rcases pod_search_cases podName with hn | ⟨c, t, w, hs, hc, ht, -⟩
  · exact toComponentName_of_search_none podName hn
  · exfalso
    obtain ⟨x, y, t₂, rfl, hx, -, hy, -⟩ := (startsWith_podTail t).mp ht
    rcases h with h | h
    · rw [hs] at h
      simp [List.count_append, List.count_cons] at h
      omega
    · apply h
      refine ⟨String.mk c, String.mk x, String.mk (y ++ t₂), ?_, ?_, ?_, ?_⟩
      · intro h; exact hc (congrArg String.data h)
      · intro h; exact hx (congrArg String.data h)
      · intro h
        have := congrArg String.data h
        simp at this
        exact hy this.1
      · apply String.ext
        have : podName.data = _ := hs
        rw [this]
        simp

/-- C5 at a pod name with one hyphen. -/
theorem toComponentName_aborts_witness :
    toComponentName "myservice-7d9f" = .error (.indexOutOfRange 1 0) :=
  toComponentName_aborts "myservice-7d9f" (Or.inl (by decide))

/-- C10: for every instance name the submatch result in `toClusterId` has
length 0 or 2, so the guard `len(match) == 1 || len(match) > 2` is false and
the diagnostic "Convert instance to cluster id failed" is not raised; on a
name without match the function ends in the index error of `match[1]` on an
empty result, otherwise it returns. -/
theorem toClusterId_guard_dead (instanceName : String) :
    ∃ re, MustCompile "^gke-(.+)-.+-pool-.+" = .ok re ∧
      ((re.FindStringSubmatch instanceName).length = 0 ∨
        (re.FindStringSubmatch instanceName).length = 2) ∧
      ¬ ((re.FindStringSubmatch instanceName).length = 1 ∨
        (re.FindStringSubmatch instanceName).length > 2) ∧
      toClusterId instanceName ≠ .error (.panic "Convert instance to cluster id failed") ∧
      ((re.FindStringSubmatch instanceName = [] ∧
          toClusterId instanceName = .error (.indexOutOfRange 1 0)) ∨
        ((re.FindStringSubmatch instanceName).length = 2 ∧
          ∃ c, toClusterId instanceName = .ok c)) := by
  refine ⟨clusterRe, compile_cluster, ?_⟩
  rcases cluster_search_cases instanceName with hn | ⟨c, t, w, hs, hc, -, hv⟩
  · have hf := find_of_search_none clusterRe instanceName hn
    have ht := toClusterId_of_search_none instanceName hn
    rw [hf, ht]
    simp
  · have hf := find_of_search clusterRe instanceName _ hv
    have ht := toClusterId_of_search instanceName _ c t w hs hv
    rw [hf, ht]
    simp

/-! ## The claims about the severity mapping, the hook and the bootstrap -/

/-- C1: `toSeverity` follows the documented table: Critical for Panic and
Fatal, Error for Error, Warning for Warn, Info for Info, Debug for Debug, and
Default for every level that is none of the six. -/
theorem toSeverity_table (l : Level) :
    ((l = PanicLevel ∨ l = FatalLevel) → toSeverity l = .Critical) ∧
    (l = ErrorLevel → toSeverity l = .Error) ∧
    (l = WarnLevel → toSeverity l = .Warning) ∧
    (l = InfoLevel → toSeverity l = .Info) ∧
    (l = DebugLevel → toSeverity l = .Debug) ∧
    ((l ≠ PanicLevel ∧ l ≠ FatalLevel ∧ l ≠ ErrorLevel ∧ l ≠ WarnLevel ∧
        l ≠ InfoLevel ∧ l ≠ DebugLevel) → toSeverity l = .Default) := by
  refine ⟨?_, ?_, ?_, ?_, ?_, ?_⟩
  · rintro (rfl | rfl) <;> rfl
  · rintro rfl; rfl
  · rintro rfl; rfl
  · rintro rfl; rfl
  · rintro rfl; rfl
  · rintro ⟨h0, h1, h2, h3, h4, h5⟩
    simp [toSeverity, h0, h1, h2, h3, h4, h5]

/-- C6: on a hook built by `newHook`, `Fire` returns nil, hands exactly one
entry to the hook's logger, with the message of the log entry as payload and
`toSeverity` of its level as severity, and leaves the hook, the entry and the
rest of the world as they were. -/
theorem fire_one_write (env : Env) (projectID cluster namespace_ component : String)
    (sh : stackDriverHook)
    (h : newHook env projectID cluster namespace_ component = .ok sh)
    (entry : Entry) (w : World) :
    ∃ l, sh.logger = some l ∧
      sh.Fire entry w = .ok
        { err := none, sh := sh, entry := entry,
          world := { w with
            sent := w.sent ++ [(l, ⟨entry.Message, toSeverity entry.Level⟩)] } } := by
  unfold newHook at h
  cases hc : env.newClient projectID with
  | error e => rw [hc] at h; cases h
  | ok client =>
    rw [hc] at h
    simp only [Except.ok.injEq] at h
    subst h
    exact ⟨_, rfl, rfl⟩

/-- C6 at the hook of the example platform and a warning. -/
theorem fire_one_write_witness :
    ∃ l, (stackDriverHook.mk AllLevels "my-project" "mycluster" "default" "myservice"
        (some ⟨⟨"my-project"⟩, "myservice",
          ⟨"container", [("cluster_name", "mycluster"), ("namespace_id", "default")]⟩⟩)).logger
        = some l ∧
      (stackDriverHook.mk AllLevels "my-project" "mycluster" "default" "myservice"
        (some ⟨⟨"my-project"⟩, "myservice",
          ⟨"container", [("cluster_name", "mycluster"), ("namespace_id", "default")]⟩⟩)).Fire
        ⟨WarnLevel, "disk almost full"⟩ freshWorld = .ok
        { err := none
          sh := stackDriverHook.mk AllLevels "my-project" "mycluster" "default" "myservice"
            (some ⟨⟨"my-project"⟩, "myservice",
              ⟨"container", [("cluster_name", "mycluster"), ("namespace_id", "default")]⟩⟩)
          entry := ⟨WarnLevel, "disk almost full"⟩
          world := { freshWorld with
            sent := freshWorld.sent ++
              [(l, ⟨(Entry.mk WarnLevel "disk almost full").Message,
                toSeverity (Entry.mk WarnLevel "disk almost full").Level⟩)] } } :=
  fire_one_write gkeEnv "my-project" "mycluster" "default" "myservice" _ rfl
    ⟨WarnLevel, "disk almost full"⟩ freshWorld

/-- C7: on the platform, with both metadata lookups answered, an unset or
empty POD_NAMESPACE or POD_NAME makes `testAndSetHook` abort with the message
that names the first missing variable, POD_NAMESPACE before POD_NAME; at that
point no hook has been registered and the output sink is the one it was. -/
theorem bootstrap_missing_variable (env : Env) (w : World) (project inst : String)
    (hgce : env.onGCE = true) (hp : env.projectID = .ok project)
    (hi : env.instanceName = .ok inst)
    (hmiss : env.getenv "POD_NAMESPACE" = "" ∨ env.getenv "POD_NAME" = "") :
    (testAndSetHook env w).1 = .error (.panic
        (if env.getenv "POD_NAMESPACE" = "" then
          "POD_NAMESPACE not set. Please define it in the yaml file using downward API"
        else "POD_NAME not set. Please define it in the yaml file using downward API")) ∧
      (testAndSetHook env w).2.hooks = w.hooks ∧
      (testAndSetHook env w).2.out = w.out := by
  unfold testAndSetHook
  simp only [hgce, hp, hi, if_true]
  by_cases hns : env.getenv "POD_NAMESPACE" = ""
  · simp [hns, Panic]
  · have hpod : env.getenv "POD_NAME" = "" := hmiss.resolve_left hns
    simp [hns, hpod, Panic]

/-- C7 on the example platform with no variable set: POD_NAMESPACE is named. -/
theorem bootstrap_missing_variable_witness :
    (testAndSetHook noVarsEnv freshWorld).1 = .error (.panic
        (if noVarsEnv.getenv "POD_NAMESPACE" = "" then
          "POD_NAMESPACE not set. Please define it in the yaml file using downward API"
        else "POD_NAME not set. Please define it in the yaml file using downward API")) ∧
      (testAndSetHook noVarsEnv freshWorld).2.hooks = freshWorld.hooks ∧
      (testAndSetHook noVarsEnv freshWorld).2.out = freshWorld.out :=
  bootstrap_missing_variable noVarsEnv freshWorld "my-project" "gke-mycluster-abc-pool-xyz"
    rfl rfl rfl (Or.inl rfl)

/-- C8: off the platform `testAndSetHook` returns without abort after the
presence check alone: no project-id or instance-name lookup, no hook
registered, the output sink unchanged, whatever the environment holds. -/
theorem bootstrap_off_platform (env : Env) (w : World) (hgce : env.onGCE = false) :
    (testAndSetHook env w).1 = .ok () ∧
      (testAndSetHook env w).2.lookups = w.lookups ++ [.onGCE] ∧
      (testAndSetHook env w).2.hooks = w.hooks ∧
      (testAndSetHook env w).2.out = w.out ∧
      (testAndSetHook env w).2.sent = w.sent := by
  simp [testAndSetHook, hgce]

/-- C8 on the example surroundings off the platform. -/
theorem bootstrap_off_platform_witness :
    (testAndSetHook offPlatformEnv freshWorld).1 = .ok () ∧
      (testAndSetHook offPlatformEnv freshWorld).2.lookups = freshWorld.lookups ++ [.onGCE] ∧
      (testAndSetHook offPlatformEnv freshWorld).2.hooks = freshWorld.hooks ∧
      (testAndSetHook offPlatformEnv freshWorld).2.out = freshWorld.out ∧
      (testAndSetHook offPlatformEnv freshWorld).2.sent = freshWorld.sent :=
  bootstrap_off_platform offPlatformEnv freshWorld rfl

/-- C9, as the code has it: when the project-id lookup answers with an empty
string and no error, `testAndSetHook` completes and registers a hook whose
projectID is empty. -/
theorem bootstrap_empty_project :
    (testAndSetHook emptyProjectEnv freshWorld).1 = .ok () ∧
      (testAndSetHook emptyProjectEnv freshWorld).2.hooks.map (fun sh => sh.projectID) = [""] ∧
      (testAndSetHook emptyProjectEnv freshWorld).2.hooks.map (fun sh => sh.cluster)
        = ["mycluster"] := by
  decide

/-- Whenever `testAndSetHook` has registered a hook, it has completed, the hook
is the one new hook, its cluster, namespace and component are non-empty
strings, and its projectID is the string the project-id lookup answered with. -/
theorem registered_hook_identity (env : Env) (w : World)
    (h : (testAndSetHook env w).2.hooks ≠ w.hooks) :
    ∃ sh, (testAndSetHook env w).2.hooks = w.hooks ++ [sh] ∧
      (testAndSetHook env w).1 = .ok () ∧
      env.projectID = .ok sh.projectID ∧
      sh.cluster ≠ "" ∧ sh.namespace_ ≠ "" ∧ sh.component ≠ "" := by
  unfold testAndSetHook at h ⊢
  cases hgce : env.onGCE with
  | false => simp [hgce] at h
  | true =>
    simp only [hgce, if_true] at h ⊢
    cases hp : env.projectID with
    | error e => simp [hp] at h
    | ok project =>
      simp only [hp] at h ⊢
      cases hi : env.instanceName with
      | error e => simp [hi] at h
      | ok inst =>
        simp only [hi] at h ⊢
        by_cases hns : env.getenv "POD_NAMESPACE" = ""
        · simp [hns] at h
        · simp only [hns, if_false] at h ⊢
          by_cases hpod : env.getenv "POD_NAME" = ""
          · simp [hpod] at h
          · simp only [hpod, if_false] at h ⊢
            cases hcl : toClusterId inst with
            | error e => simp [hcl] at h
            | ok cluster =>
              simp only [hcl] at h ⊢
              cases hco : toComponentName (env.getenv "POD_NAME") with
              | error e => simp [hco] at h
              | ok component =>
                simp only [hco] at h ⊢
                cases hnh : newHook env project cluster (env.getenv "POD_NAMESPACE") component with
                | error e => simp [hnh] at h
                | ok sh =>
                  simp only [hnh]
                  unfold newHook at hnh
                  cases hc : env.newClient project with
                  | error e => rw [hc] at hnh; cases hnh
                  | ok client =>
                    rw [hc] at hnh
                    simp only [Except.ok.injEq] at hnh
                    subst hnh
                    exact ⟨_, rfl, trivial, rfl, toClusterId_ok_ne_empty _ _ hcl, hns,
                      toComponentName_ok_ne_empty _ _ hco⟩

/-- On the platform, a failed project-id or instance-name lookup, an empty
POD_NAMESPACE or POD_NAME, an instance name from which no cluster id is
derived, or a pod name from which no component name is derived makes
`testAndSetHook` abort, with no hook registered and the output sink unchanged. -/
theorem missing_value_aborts (env : Env) (w : World) (hgce : env.onGCE = true)
    (hbad : (∃ e, env.projectID = .error e) ∨ (∃ e, env.instanceName = .error e) ∨
      env.getenv "POD_NAMESPACE" = "" ∨ env.getenv "POD_NAME" = "" ∨
      (∃ inst e, env.instanceName = .ok inst ∧ toClusterId inst = .error e) ∨
      (∃ e, toComponentName (env.getenv "POD_NAME") = .error e)) :
    (∃ a, (testAndSetHook env w).1 = .error a) ∧
      (testAndSetHook env w).2.hooks = w.hooks ∧
      (testAndSetHook env w).2.out = w.out := by
  unfold testAndSetHook
  simp only [hgce, if_true]
  cases hp : env.projectID with
  | error e => simp [Panic]
  | ok project =>
    simp only [hp]
    cases hi : env.instanceName with
    | error e => simp [Panic]
    | ok inst =>
      simp only [hi]
      by_cases hns : env.getenv "POD_NAMESPACE" = ""
      · simp [hns, Panic]
      · simp only [hns, if_false]
        by_cases hpod : env.getenv "POD_NAME" = ""
        · simp [hpod, Panic]
        · simp only [hpod, if_false]
          cases hcl : toClusterId inst with
          | error e => simp
          | ok cluster =>
            simp only [hcl]
            cases hco : toComponentName (env.getenv "POD_NAME") with
            | error e => simp
            | ok component =>
              exfalso
              rcases hbad with ⟨e, h⟩ | ⟨e, h⟩ | h | h | ⟨i, e, h, h'⟩ | ⟨e, h⟩
              · rw [hp] at h; cases h
              · rw [hi] at h; cases h
              · exact hns h
              · exact hpod h
              · rw [hi] at h
                injection h with h
                subst h
                rw [hcl] at h'
                cases h'
              · rw [hco] at h; cases h

/-- C9 amended: whenever `testAndSetHook` has registered a hook, it has
completed, the hook is the one new hook, its cluster, namespace and component
are non-empty strings, and its projectID is the string the project-id lookup
answered with; and on the platform a missing project id or instance name
(failed lookup), an empty POD_NAMESPACE or POD_NAME, or an instance or pod
name that yields no cluster id or component name aborts the bootstrap, with
no hook registered and the output sink unchanged. -/
theorem bootstrap_identity (env : Env) (w : World) :
    ((testAndSetHook env w).2.hooks ≠ w.hooks →
      ∃ sh, (testAndSetHook env w).2.hooks = w.hooks ++ [sh] ∧
        (testAndSetHook env w).1 = .ok () ∧
        env.projectID = .ok sh.projectID ∧
        sh.cluster ≠ "" ∧ sh.namespace_ ≠ "" ∧ sh.component ≠ "") ∧
    (env.onGCE = true →
      ((∃ e, env.projectID = .error e) ∨ (∃ e, env.instanceName = .error e) ∨
        env.getenv "POD_NAMESPACE" = "" ∨ env.getenv "POD_NAME" = "" ∨
        (∃ inst e, env.instanceName = .ok inst ∧ toClusterId inst = .error e) ∨
        (∃ e, toComponentName (env.getenv "POD_NAME") = .error e)) →
      (∃ a, (testAndSetHook env w).1 = .error a) ∧
        (testAndSetHook env w).2.hooks = w.hooks ∧
        (testAndSetHook env w).2.out = w.out) :=
  ⟨registered_hook_identity env w, missing_value_aborts env w⟩

/-- C9 amended, on the example platform (a hook with a full identity is
registered) and on the same platform with no variable set (abort, no hook). -/
theorem bootstrap_identity_witness :
    (∃ sh, (testAndSetHook gkeEnv freshWorld).2.hooks = freshWorld.hooks ++ [sh] ∧
      (testAndSetHook gkeEnv freshWorld).1 = .ok () ∧
      gkeEnv.projectID = .ok sh.projectID ∧
      sh.cluster ≠ "" ∧ sh.namespace_ ≠ "" ∧ sh.component ≠ "") ∧
    ((∃ a, (testAndSetHook noVarsEnv freshWorld).1 = .error a) ∧
      (testAndSetHook noVarsEnv freshWorld).2.hooks = freshWorld.hooks ∧
      (testAndSetHook noVarsEnv freshWorld).2.out = freshWorld.out) :=
  ⟨(bootstrap_identity gkeEnv freshWorld).1 (by decide),
    (bootstrap_identity noVarsEnv freshWorld).2 rfl (Or.inr (Or.inr (Or.inl rfl)))⟩

end Logrus
